import Mathlib

/-!
# Verification of the guess-the-song core logic

A shallow embedding of the repository's core algorithmic code:

* `src/lib/fuzzyMatch.ts` — string normalisation and fuzzy answer matching
  (`normalizeString`, `findBestMatch`, `isMatch`);
* `src/lib/utils.ts` — `shuffleArray`, `calculateScore`, `normalizeTrackName`
  (two historical variants of this file exist in the repository; both
  `normalizeTrackName` versions are embedded, as `Utils.normalizeTrackName`
  and `LibUtils.normalizeTrackName`);
* `src/lib/gameSettings.ts` — `getRoundsCount`, `getTimeInSeconds`;
* `src/hooks/useGameLogic.ts` — `generateQuestions` and the synchronous part
  of `handleAnswer` (the round state machine).

Modelling conventions:

* JavaScript strings are modelled as `List Char`; `String.toList` mediates.
* JavaScript regular-expression `.replace` calls are modelled rule by rule by
  explicit scanners that reproduce the leftmost-match, global-replace
  semantics of the concrete patterns appearing in the source.  Scanners that
  restart after a successful match take a fuel argument; fuel equal to the
  input length is always sufficient because every successful match consumes
  at least one character of input.
* `String.prototype.normalize('NFD')` is modelled on the Latin-1 supplement
  range (the precomposed Latin letters with diacritics); all other characters
  decompose to themselves.
* `Math.random()`-driven choices are modelled by explicit integer oracles
  (`rand : Nat → Nat` …); every theorem quantifies over all oracles.
* Numbers are `Nat`/`Int`/`Rat` as appropriate; `Math.round` is
  `⌊x + 1/2⌋`.  Division by zero yields `0` in `Rat` (the game only divides
  by the per-round time, which is 10, 20 or 30 seconds).
* The Fuse.js fuzzy search engine is an external library; it is modelled as
  an explicit parameter (`FuseEngine`).  All theorems hold for every engine.
-/

namespace GuessSong

/-! ## JavaScript character and string primitives -/

/-- The whitespace class `\s` of JavaScript regular expressions, restricted
to the ASCII range (the track names and answers handled by the game). -/
def jsIsSpace (c : Char) : Bool :=
  c = ' ' || c = '\t' || c = '\n' || c = '\r' || c = '\x0b' || c = '\x0c'

/-- A JavaScript regexp line terminator (not matched by `.`). -/
def isLineTerm (c : Char) : Bool :=
  c = '\n' || c = '\r'

/-- The word-character class `\w` = `[A-Za-z0-9_]`. -/
def isWordChar (c : Char) : Bool :=
  ('a' ≤ c && c ≤ 'z') || ('A' ≤ c && c ≤ 'Z') || ('0' ≤ c && c ≤ '9') || c = '_'

/-- `String.prototype.toLowerCase`, modelled on ASCII plus the Latin-1
uppercase letters `À`–`Þ` (excluding `×`). -/
def jsToLowerChar (c : Char) : Char :=
  if 0xC0 ≤ c.toNat && c.toNat ≤ 0xDE && c.toNat ≠ 0xD7 then
    Char.ofNat (c.toNat + 0x20)
  else
    c.toLower

/-- Unicode NFD decomposition of a character, modelled on the Latin-1
supplement precomposed letters; every other character decomposes to itself.
`'̀'`=grave, `'́'`=acute, `'̂'`=circumflex, `'̃'`=tilde,
`'̈'`=diaeresis, `'̊'`=ring, `'̧'`=cedilla. -/
def nfdChar (c : Char) : List Char :=
  match c with
  | 'À' => ['A', '̀'] | 'Á' => ['A', '́'] | 'Â' => ['A', '̂']
  | 'Ã' => ['A', '̃'] | 'Ä' => ['A', '̈'] | 'Å' => ['A', '̊']
  | 'Ç' => ['C', '̧']
  | 'È' => ['E', '̀'] | 'É' => ['E', '́'] | 'Ê' => ['E', '̂']
  | 'Ë' => ['E', '̈']
  | 'Ì' => ['I', '̀'] | 'Í' => ['I', '́'] | 'Î' => ['I', '̂']
  | 'Ï' => ['I', '̈']
  | 'Ñ' => ['N', '̃']
  | 'Ò' => ['O', '̀'] | 'Ó' => ['O', '́'] | 'Ô' => ['O', '̂']
  | 'Õ' => ['O', '̃'] | 'Ö' => ['O', '̈']
  | 'Ù' => ['U', '̀'] | 'Ú' => ['U', '́'] | 'Û' => ['U', '̂']
  | 'Ü' => ['U', '̈']
  | 'Ý' => ['Y', '́']
  | 'à' => ['a', '̀'] | 'á' => ['a', '́'] | 'â' => ['a', '̂']
  | 'ã' => ['a', '̃'] | 'ä' => ['a', '̈'] | 'å' => ['a', '̊']
  | 'ç' => ['c', '̧']
  | 'è' => ['e', '̀'] | 'é' => ['e', '́'] | 'ê' => ['e', '̂']
  | 'ë' => ['e', '̈']
  | 'ì' => ['i', '̀'] | 'í' => ['i', '́'] | 'î' => ['i', '̂']
  | 'ï' => ['i', '̈']
  | 'ñ' => ['n', '̃']
  | 'ò' => ['o', '̀'] | 'ó' => ['o', '́'] | 'ô' => ['o', '̂']
  | 'õ' => ['o', '̃'] | 'ö' => ['o', '̈']
  | 'ù' => ['u', '̀'] | 'ú' => ['u', '́'] | 'û' => ['u', '̂']
  | 'ü' => ['u', '̈']
  | 'ý' => ['y', '́'] | 'ÿ' => ['y', '̈']
  | c => [c]

/-- A combining diacritical mark, i.e. the regexp class `[̀-ͯ]`. -/
def isCombiningMark (c : Char) : Bool :=
  0x300 ≤ c.toNat && c.toNat ≤ 0x36F

/-- `String.prototype.trim`. -/
def jsTrim (cs : List Char) : List Char :=
  ((cs.dropWhile jsIsSpace).reverse.dropWhile jsIsSpace).reverse

/-- Helper for `.replace(/\s+/g, ' ')`: the flag records whether the previous
character was whitespace (in which case the current run was already
replaced by a single space). -/
def collapseWsAux : Bool → List Char → List Char
  | _, [] => []
  | prevSpace, c :: rest =>
    if jsIsSpace c then
      if prevSpace then collapseWsAux true rest
      else ' ' :: collapseWsAux true rest
    else c :: collapseWsAux false rest

/-- `.replace(/\s+/g, ' ')`: collapse every whitespace run to one space. -/
def collapseWs (cs : List Char) : List Char :=
  collapseWsAux false cs

/-- Case-insensitive literal-prefix match: if the lowercase word `w` is a
prefix of `cs` (comparing through `jsToLowerChar`), return the remainder. -/
def ciStarts : List Char → List Char → Option (List Char)
  | [], cs => some cs
  | _, [] => none
  | w :: ws, c :: cs => if jsToLowerChar c = w then ciStarts ws cs else none

/-- First matching alternative of an alternation `(w₁|w₂|…)` of literal
words, tried in order, at the head of `cs`. -/
def firstCi : List (List Char) → List Char → Option (List Char)
  | [], _ => none
  | w :: ws, cs =>
    match ciStarts w cs with
    | some r => some r
    | none => firstCi ws cs

/-- Generic global regexp replace: at each position try the matcher `m`
(which returns the remainder after a successful match); on success emit the
replacement `r` and resume after the match, otherwise emit one character and
advance.  Reproduces leftmost-match global `.replace` semantics.  Fuel equal
to the input length suffices: every successful match consumes at least one
character. -/
def scanReplace (m : List Char → Option (List Char)) (r : List Char) :
    Nat → List Char → List Char
  | 0, cs => cs
  | _, [] => []
  | fuel + 1, c :: rest =>
    match m (c :: rest) with
    | some rem => r ++ scanReplace m r fuel rem
    | none => c :: scanReplace m r fuel rest

/-- Global replace of a word-bounded token (`/\bword\b/gi`-style rules).
The Boolean argument records whether the previous character of the *source*
string was a word character (the `\b` assertions are evaluated against the
source, also after earlier replacements in the same pass).  The matcher `m`
recognises the token itself; the leading and trailing `\b` are checked here:
a match is accepted only if the previous character was not a word character
and the character following the match is absent or not a word character. -/
def wordScan (m : List Char → Option (List Char)) (r : List Char) :
    Nat → Bool → List Char → List Char
  | 0, _, cs => cs
  | _, _, [] => []
  | fuel + 1, prevW, c :: rest =>
    if prevW then
      c :: wordScan m r fuel (isWordChar c) rest
    else
      match m (c :: rest) with
      | some rem =>
        if (rem.head?.map isWordChar).getD false then
          c :: wordScan m r fuel (isWordChar c) rest
        else
          r ++ wordScan m r fuel true rem
      | none => c :: wordScan m r fuel (isWordChar c) rest

/-! ## Track-name normalisation (`normalizeTrackName`, `src/lib/utils.ts`)

The source (part_005 variant):
```
name.toLowerCase()
  .replace(/\s*[\(\[].*?(deluxe|remix|remaster|edit|version|extended|radio|acoustic|live|instrumental|explicit).*?[\)\]]/gi, '')
  .replace(/\s*-\s*(deluxe|remix|remaster|edit|version|extended|radio|acoustic|live|instrumental|explicit).*$/gi, '')
  .replace(/\s+/g, ' ')
  .trim()
```
-/

/-- The qualifier alternation of `normalizeTrackName`. -/
def qualifierWords : List (List Char) :=
  ["deluxe", "remix", "remaster", "edit", "version", "extended", "radio",
   "acoustic", "live", "instrumental", "explicit"].map String.toList

/-- The lazy `.*?(qualifier)` part: find the earliest position where one of
the qualifier words matches and return the remainder after the word.  `.`
does not match a line terminator, so the search aborts at one. -/
def lazyFindQual : List Char → Option (List Char)
  | [] => none
  | c :: rest =>
    match firstCi qualifierWords (c :: rest) with
    | some r => some r
    | none => if isLineTerm c then none else lazyFindQual rest

/-- The lazy `.*?[x|y]` part: earliest occurrence of one of the closing
characters, returning the remainder after it; aborts at a line terminator. -/
def lazyFindClose (closes : List Char) : List Char → Option (List Char)
  | [] => none
  | c :: rest =>
    if closes.contains c then some rest
    else if isLineTerm c then none
    else lazyFindClose closes rest

/-- Matcher for `\s*[\(\[].*?(qualifier).*?[\)\]]` at the current position. -/
def qualParenMatch (cs : List Char) : Option (List Char) :=
  match cs.dropWhile jsIsSpace with
  | c :: r2 =>
    if c = '(' || c = '[' then (lazyFindQual r2).bind (lazyFindClose [')', ']'])
    else none
  | [] => none

/-- Does `\s*-\s*(qualifier).*$` match starting exactly here?  The trailing
`.*$` (without the `m` flag) succeeds only if no line terminator remains. -/
def qualDashHere (cs : List Char) : Bool :=
  match cs.dropWhile jsIsSpace with
  | '-' :: r2 =>
    match firstCi qualifierWords (r2.dropWhile jsIsSpace) with
    | some rem => rem.all fun c => !(isLineTerm c)
    | none => false
  | _ => false

/-- Global replace of `\s*-\s*(qualifier).*$` by the empty string: delete
everything from the leftmost match position (the match extends to the end). -/
def qualDashStrip : List Char → List Char
  | [] => []
  | c :: rest => if qualDashHere (c :: rest) then [] else c :: qualDashStrip rest

namespace Utils

/-- `normalizeTrackName` from `src/lib/utils.ts` (part_005 variant): remove
common qualifier suffixes such as "(Deluxe Edition)" or "- Remix". -/
def normalizeTrackName (name : String) : String :=
  let cs0 := name.toList.map GuessSong.jsToLowerChar
  let cs1 := scanReplace qualParenMatch [] cs0.length cs0
  let cs2 := qualDashStrip cs1
  String.mk (jsTrim (collapseWs cs2))

end Utils

namespace LibUtils

/-- Matcher for `\s*\(.*?\)\s*` (and the `[...]` analogue): optional leading
whitespace, an opening bracket, lazily up to the earliest closing bracket,
then greedy trailing whitespace. -/
def parenChunkMatch (openC closeC : Char) (cs : List Char) : Option (List Char) :=
  match cs.dropWhile jsIsSpace with
  | c :: r2 =>
    if c = openC then (lazyFindClose [closeC] r2).map (List.dropWhile jsIsSpace)
    else none
  | [] => none

/-- `normalizeTrackName` from the second variant of `src/lib/utils.ts`:
```
name.toLowerCase()
  .replace(/\s*\(.*?\)\s*/g, '')
  .replace(/\s*\[.*?\]\s*/g, '')
  .replace(/[^\w\s]/g, '')
  .replace(/\s+/g, ' ')
  .trim()
```
-/
def normalizeTrackName (name : String) : String :=
  let cs0 := name.toList.map GuessSong.jsToLowerChar
  let cs1 := scanReplace (parenChunkMatch '(' ')') [] cs0.length cs0
  let cs2 := scanReplace (parenChunkMatch '[' ']') [] cs1.length cs1
  let cs3 := cs2.filter fun c => isWordChar c || jsIsSpace c
  String.mk (jsTrim (collapseWs cs3))

end LibUtils

/-! ## The fuzzy matcher's comparison normaliser
(`normalizeString`, `src/lib/fuzzyMatch.ts`) -/

namespace Fuzzy

/-- Matcher for `\s*\(word\.?\s+` (the `(feat.` / `(ft.` rules). -/
def parenFeatMatch (word : List Char) (cs : List Char) : Option (List Char) :=
  match cs.dropWhile jsIsSpace with
  | '(' :: r2 =>
    match ciStarts word r2 with
    | some r3 =>
      let r4 := match r3 with
        | '.' :: r => r
        | _ => r3
      if (r4.takeWhile jsIsSpace).isEmpty then none
      else some (r4.dropWhile jsIsSpace)
    | none => none
  | _ => none

/-- Matcher for `\s+word\s+` (with an optional dot after the word when
`optDot` is set: the `\s+featuring\s+` and `\s+ft\.?\s+` rules). -/
def spaceWordMatch (word : List Char) (optDot : Bool) (cs : List Char) :
    Option (List Char) :=
  if (cs.takeWhile jsIsSpace).isEmpty then none
  else
    match ciStarts word (cs.dropWhile jsIsSpace) with
    | some r3 =>
      let r4 := if optDot then
          match r3 with
          | '.' :: r => r
          | _ => r3
        else r3
      if (r4.takeWhile jsIsSpace).isEmpty then none
      else some (r4.dropWhile jsIsSpace)
    | none => none

/-- `.replace(/^the\s+/i, '')`: strip a leading "the" followed by
whitespace. -/
def stripTheRule (cs : List Char) : List Char :=
  match ciStarts ['t', 'h', 'e'] cs with
  | some rest =>
    if (rest.takeWhile jsIsSpace).isEmpty then cs
    else rest.dropWhile jsIsSpace
  | none => cs

/-- A `/\bword\b/gi → repl` rule. -/
def wordRule (w r : String) : (List Char → Option (List Char)) × List Char :=
  (ciStarts w.toList, r.toList)

/-- Matcher for a compound number word `w₁[\s-]?w₂` (e.g.
`twenty[\s-]?one`).  The optional single separator is a whitespace
character or a hyphen; a greedy attempt with the separator falls back to
the separator-less alternative. -/
def compoundMatch (w1 w2 : List Char) (cs : List Char) : Option (List Char) :=
  match ciStarts w1 cs with
  | some r1 =>
    match r1 with
    | c :: r2 =>
      if jsIsSpace c || c = '-' then
        match ciStarts w2 r2 with
        | some r3 => some r3
        | none => ciStarts w2 r1
      else ciStarts w2 r1
    | [] => none
  | none => none

/-- A `/\bw₁[\s-]?w₂\b/gi → repl` rule. -/
def compoundRule (w1 w2 r : String) : (List Char → Option (List Char)) × List Char :=
  (compoundMatch w1.toList w2.toList, r.toList)

/-- The written-number replacement rules of `normalizeString`, in source
order: the single words one…twenty, then the compound rules, then the tens. -/
def numberRules : List ((List Char → Option (List Char)) × List Char) :=
  [wordRule "one" "1", wordRule "two" "2", wordRule "three" "3",
   wordRule "four" "4", wordRule "five" "5", wordRule "six" "6",
   wordRule "seven" "7", wordRule "eight" "8", wordRule "nine" "9",
   wordRule "ten" "10", wordRule "eleven" "11", wordRule "twelve" "12",
   wordRule "thirteen" "13", wordRule "fourteen" "14", wordRule "fifteen" "15",
   wordRule "sixteen" "16", wordRule "seventeen" "17", wordRule "eighteen" "18",
   wordRule "nineteen" "19", wordRule "twenty" "20",
   compoundRule "twenty" "one" "21", compoundRule "twenty" "two" "22",
   compoundRule "thirty" "three" "33", compoundRule "forty" "two" "42",
   wordRule "fifty" "50", wordRule "sixty" "60", wordRule "seventy" "70",
   wordRule "eighty" "80", wordRule "ninety" "90"]

/-- Apply one word-bounded replacement rule over the whole string. -/
def applyWordRule (cs : List Char)
    (rule : (List Char → Option (List Char)) × List Char) : List Char :=
  wordScan rule.1 rule.2 cs.length false cs

/-- The replacement text `' feat. '` of the featuring rules. -/
def featRepl : List Char := " feat. ".toList

/-- `normalizeString` from `src/lib/fuzzyMatch.ts`: NFD-decompose, strip
combining diacritical marks, lowercase, trim, strip a leading "the",
canonicalise featuring variants, convert written numbers to digits, replace
the remaining non-word characters by spaces and collapse whitespace. -/
def normalizeString (str : String) : String :=
  let cs0 := (str.toList.map nfdChar).flatten
  let cs1 := cs0.filter fun c => !(isCombiningMark c)
  let cs2 := cs1.map jsToLowerChar
  let cs3 := jsTrim cs2
  let cs4 := stripTheRule cs3
  let cs5 := scanReplace (parenFeatMatch "feat".toList) featRepl cs4.length cs4
  let cs6 := scanReplace (parenFeatMatch "ft".toList) featRepl cs5.length cs5
  let cs7 := scanReplace (spaceWordMatch "featuring".toList false) featRepl cs6.length cs6
  let cs8 := scanReplace (spaceWordMatch "ft".toList true) featRepl cs7.length cs7
  let cs9 := numberRules.foldl applyWordRule cs8
  let cs10 := cs9.map fun c => if isWordChar c || jsIsSpace c then c else ' '
  String.mk (jsTrim (collapseWs cs10))

/-! ## The fuzzy matcher (`findBestMatch` / `isMatch`, `src/lib/fuzzyMatch.ts`) -/

/-- Result record of `findBestMatch`. -/
structure FuzzyMatchResult where
  match' : String
  confidence : Rat
  index : Int
deriving DecidableEq, Repr

/-- The Fuse.js search engine, modelled as an opaque parameter: given the
option list, the normalised query and the threshold, it returns the best
result's item and score (`results[0]`), or `none` when `results` is empty.
Every theorem below holds for every engine. -/
def FuseEngine : Type :=
  List String → String → Rat → Option (String × Rat)

/-- `Array.prototype.findIndex`: index of the first element satisfying `p`
(`none` models `-1`). -/
def jsFindIndex (p : String → Bool) : List String → Option Nat
  | [] => none
  | o :: rest =>
    if p o then some 0
    else (jsFindIndex p rest).map (· + 1)

/-- `Array.prototype.indexOf` (`-1` when absent). -/
def jsIndexOf (options : List String) (item : String) : Int :=
  match jsFindIndex (· = item) options with
  | some i => (i : Int)
  | none => -1

/-- `findBestMatch` (single-string path) from `src/lib/fuzzyMatch.ts`:
reject an empty query or empty option list, short-circuit on an exact
normalised match with confidence `1.0`, otherwise consult the fuzzy engine.
`1 - (bestResult.score || 1)` is modelled faithfully: a score of `0` is
falsy in JavaScript, so it is replaced by `1`. -/
def findBestMatch (fuse : FuseEngine) (query : String) (options : List String)
    (threshold : Rat) : Option FuzzyMatchResult :=
  if query = "" || options.isEmpty then none
  else
    let normalizedQuery := normalizeString query
    match jsFindIndex (fun opt => normalizeString opt = normalizedQuery) options with
    | some i => some ⟨options.getD i "", 1, (i : Int)⟩
    | none =>
      match fuse options normalizedQuery threshold with
      | none => none
      | some (item, score) =>
        some ⟨item, 1 - (if score = 0 then 1 else score), jsIndexOf options item⟩

/-- `isMatch` from `src/lib/fuzzyMatch.ts`: true iff `findBestMatch` on the
single-candidate list succeeds with confidence at least `1 - threshold`. -/
def isMatch (fuse : FuseEngine) (query target : String) (threshold : Rat) : Bool :=
  match findBestMatch fuse query [target] threshold with
  | none => false
  | some result => result.confidence ≥ 1 - threshold

end Fuzzy

/-! ## `shuffleArray` and `calculateScore` (`src/lib/utils.ts`) -/

namespace Utils

/-- One Fisher–Yates swap of positions `i` and `j` (identity when either
index is out of range, which never happens in `shuffleArray`). -/
def listSwap {α : Type _} (l : List α) (i j : Nat) : List α :=
  match l[i]?, l[j]? with
  | some x, some y => (l.set i y).set j x
  | _, _ => l

/-- The loop of `shuffleArray`: for `i` from `n-1` down to `1`, swap
position `i` with position `rand i % (i+1)`.  `rand i % (i+1)` models
`Math.floor(Math.random() * (i + 1))`, a uniform draw from `0…i`. -/
def shuffleLoop {α : Type _} (rand : Nat → Nat) : List α → Nat → List α
  | l, 0 => l
  | l, i + 1 => shuffleLoop rand (listSwap l (i + 1) (rand (i + 1) % (i + 2))) i

/-- `shuffleArray` from `src/lib/utils.ts`: copy the input (value semantics
here), then run the Fisher–Yates loop.  The caller's list is never
mutated. -/
def shuffleArray {α : Type _} (rand : Nat → Nat) (l : List α) : List α :=
  shuffleLoop rand l (l.length - 1)

/-- `Math.round`: round half away from zero upward, `⌊x + 1/2⌋`. -/
def jsRound (q : Rat) : Int :=
  ⌊q + 1 / 2⌋

/-- `calculateScore` from `src/lib/utils.ts` (part_005 variant): zero when
incorrect, otherwise base 100 plus a time bonus and 10 points per streak
step, rounded. -/
def calculateScore (isCorrect : Bool) (timeRemaining totalTime : Rat)
    (currentStreak : Rat) : Int :=
  if !isCorrect then 0
  else
    let basePoints : Rat := 100
    let timeBonus : Rat := timeRemaining / totalTime * 50
    let streakBonus : Rat := currentStreak * 10
    jsRound (basePoints + timeBonus + streakBonus)

end Utils

/-! ## Game settings (`src/lib/gameSettings.ts`) -/

inductive GameMode where
  | artist
  | album
  | genre
deriving DecidableEq, Repr

inductive RoundSetting where
  | short
  | standard
  | long
  | max
deriving DecidableEq, Repr

inductive TimeSetting where
  | quick
  | normal
  | relaxed
deriving DecidableEq, Repr

structure GameSettings where
  rounds : RoundSetting
  timePerRound : TimeSetting
  allowPause : Bool
deriving DecidableEq, Repr

/-- `getRoundsCount`: the round target for a setting, capped by the track
count. -/
def getRoundsCount (setting : RoundSetting) (trackCount : Nat) : Nat :=
  match setting with
  | .short => min 5 trackCount
  | .standard => min 10 trackCount
  | .long => min 15 trackCount
  | .max => min 30 trackCount

/-- `getTimeInSeconds`: seconds per round for a time setting. -/
def getTimeInSeconds (setting : TimeSetting) : Nat :=
  match setting with
  | .quick => 10
  | .normal => 20
  | .relaxed => 30

/-! ## Data model (`src/types`) -/

structure Track where
  id : String
  name : String
  artists : List String
  album : String
  preview_url : Option String := none
  album_art : String := ""
  startTime : Option Nat := none
deriving DecidableEq, Repr

/-- `track.artists[0]`; the artist list of a fetched track is never empty,
the default covers totality. -/
def Track.primaryArtist (t : Track) : String :=
  t.artists.headD ""

structure QuizQuestion where
  track : Track
  options : List String
  correctAnswer : String
  correctAnswers : List String
  round : Nat
deriving DecidableEq, Repr

structure RoundResult where
  round : Nat
  track : Track
  userAnswer : String
  correctAnswer : String
  isCorrect : Bool
  timeRemaining : Nat
  points : Int
  streak : Nat
deriving DecidableEq, Repr

/-! ## Question generation (`generateQuestions`, `src/hooks/useGameLogic.ts`) -/

/-- `String.prototype.toLowerCase` on a whole string. -/
def jsToLower (s : String) : String :=
  String.mk (s.toList.map jsToLowerChar)

/-- The deduplication key of genre mode:
`` `${normalizeTrackName(track.name)}-${track.artists[0].toLowerCase()}` ``. -/
def trackKey (t : Track) : String :=
  Utils.normalizeTrackName t.name ++ "-" ++ jsToLower t.primaryArtist

/-- One step of the genre-mode dedup `Map`: insert a track under its key
only if the key is not yet present (a JavaScript `Map` preserves insertion
order, so the accumulator is an ordered association list). -/
def insertTrackByKey (acc : List (String × Track)) (t : Track) :
    List (String × Track) :=
  if acc.any (fun p => p.1 = trackKey t) then acc
  else acc ++ [(trackKey t, t)]

/-- The working pool used to select question-backing tracks: deduplicated
per `(normalized name, lowercased primary artist)` key in genre mode
(keeping the first occurrence), the input list unchanged otherwise. -/
def tracksForQuestions (mode : GameMode) (tracks : List Track) : List Track :=
  match mode with
  | .genre => (tracks.foldl insertTrackByKey []).map Prod.snd
  | _ => tracks

/-- The subject-value extractor `getOptionValue` of `generateQuestions`. -/
def getOptionValue (mode : GameMode) (t : Track) : String :=
  match mode with
  | .artist => t.primaryArtist
  | .album => t.album
  | .genre => t.name

/-- `new Set(list)` read back with `Array.from`: drop later duplicates,
keeping first-insertion order. -/
def jsSetDedup (l : List String) : List String :=
  l.foldl (fun acc s => if s ∈ acc then acc else acc ++ [s]) []

/-- The `correctAnswers` of a question: in genre mode, all name variations
among the *original* (pre-dedup) tracks by the same primary artist whose
normalised name matches; otherwise just the correct answer. -/
def buildCorrectAnswers (mode : GameMode) (tracks : List Track) (track : Track)
    (correctAnswer : String) : List String :=
  match mode with
  | .genre =>
    let normalizedCorrect := Utils.normalizeTrackName correctAnswer
    let similarTracks := tracks.filter fun t =>
      t.primaryArtist = track.primaryArtist &&
        Utils.normalizeTrackName (getOptionValue .genre t) = normalizedCorrect
    jsSetDedup (similarTracks.map Track.name)
  | _ => [correctAnswer]

/-- The distractor-collection loop of `generateQuestions`: walk the shuffled
pool, skip the selected track itself (by id), skip any correct-answer
variation, skip values already collected (`uniqueOptions`), and stop once
three wrong answers have been gathered. -/
def collectWrong (mode : GameMode) (selfId : String) (correctAnswers : List String) :
    List Track → List String → List String → List String
  | [], _, wrong => wrong
  | t :: rest, uniq, wrong =>
    if t.id = selfId then collectWrong mode selfId correctAnswers rest uniq wrong
    else
      let optionValue := getOptionValue mode t
      if optionValue ∈ correctAnswers then
        collectWrong mode selfId correctAnswers rest uniq wrong
      else if optionValue ∈ uniq then
        collectWrong mode selfId correctAnswers rest uniq wrong
      else
        let wrong' := wrong ++ [optionValue]
        if wrong'.length ≥ 3 then wrong'
        else collectWrong mode selfId correctAnswers rest (uniq ++ [optionValue]) wrong'

/-- Build one `QuizQuestion` for the selected `track` at 0-based `index`:
compute the correct answer and its accepted variations, collect up to three
distractors from the shuffled pool, shuffle the option list
(`optRand` models that call's `Math.random` draws, `repairRand` the one in
the defensive repair) and re-insert the correct answer if the shuffled
options were to lose it. -/
def buildQuestion (mode : GameMode) (tracks shuffledTracks : List Track)
    (optRand : Nat → Nat) (repairRand : Nat) (track : Track) (index : Nat) :
    QuizQuestion :=
  let correctAnswer := getOptionValue mode track
  let correctAnswers := buildCorrectAnswers mode tracks track correctAnswer
  let wrongAnswers := collectWrong mode track.id correctAnswers shuffledTracks
    [correctAnswer] []
  let options := correctAnswer :: wrongAnswers
  let shuffledOptions := (Utils.shuffleArray optRand options).take 4
  let finalOptions :=
    if correctAnswer ∈ shuffledOptions then shuffledOptions
    else shuffledOptions.set (repairRand % shuffledOptions.length) correctAnswer
  { track := track
    options := finalOptions
    correctAnswer := correctAnswer
    correctAnswers := correctAnswers
    round := index + 1 }

/-- `selectedTracks.map((track, index) => …)`. -/
def buildQuestions (mode : GameMode) (tracks shuffledTracks : List Track)
    (optRand : Nat → Nat → Nat) (repairRand : Nat → Nat) :
    List Track → Nat → List QuizQuestion
  | [], _ => []
  | t :: rest, index =>
    buildQuestion mode tracks shuffledTracks (optRand index) (repairRand index) t index ::
      buildQuestions mode tracks shuffledTracks optRand repairRand rest (index + 1)

/-- `generateQuestions` from `src/hooks/useGameLogic.ts`: empty for fewer
than four tracks; otherwise deduplicate (genre mode), shuffle, take the
first `min(totalRounds, poolSize)` tracks and build one question for each.
The oracles `poolRand`, `optRand` and `repairRand` model the `Math.random`
draws of the pool shuffle, each per-question option shuffle, and each
per-question defensive repair. -/
def generateQuestions (poolRand : Nat → Nat) (optRand : Nat → Nat → Nat)
    (repairRand : Nat → Nat) (tracks : List Track) (mode : GameMode)
    (settings : GameSettings) : List QuizQuestion :=
  if tracks.length < 4 then []
  else
    let tracksFQ := tracksForQuestions mode tracks
    let shuffledTracks := Utils.shuffleArray poolRand tracksFQ
    let totalRounds := getRoundsCount settings.rounds tracks.length
    let selectedTracks := shuffledTracks.take (min totalRounds tracksFQ.length)
    buildQuestions mode tracks shuffledTracks optRand repairRand selectedTracks 0

/-! ## The round state machine (`handleAnswer`, `src/hooks/useGameLogic.ts`)

React state updates are modelled by explicit state passing with the
single-threaded event-loop semantics of §5 of the design: each event handler
runs to completion against the state left by the previous one.  The
post-answer `setTimeout` transition (advance or finish) is a separate later
event and is not part of the synchronous `handleAnswer` step. -/

structure GameState where
  questions : List QuizQuestion
  currentRound : Nat
  timeRemaining : Nat
  score : Int
  streak : Nat
  maxStreak : Nat
  roundResults : List RoundResult
  isPlaying : Bool
  isPaused : Bool
deriving DecidableEq, Repr

/-- The answer-correctness check of `handleAnswer`: exact equality against
any accepted variation, with a fuzzy fallback at threshold `0.3` in genre
mode only. -/
def answerIsCorrect (fuse : Fuzzy.FuseEngine) (mode : GameMode)
    (question : QuizQuestion) (answer : String) : Bool :=
  question.correctAnswers.any fun correct =>
    answer = correct ||
      (match mode with
       | .genre => Fuzzy.isMatch fuse answer correct (3 / 10)
       | _ => false)

/-- The synchronous part of `handleAnswer`: no-op unless a round is playing
and in range; otherwise score the answer once, update streak, max streak and
score, append the single `RoundResult` and stop playing. -/
def handleAnswer (fuse : Fuzzy.FuseEngine) (mode : GameMode)
    (settings : GameSettings) (s : GameState) (answer : String) : GameState :=
  if h : s.isPlaying = true ∧ s.currentRound < s.questions.length then
    let question := s.questions.get ⟨s.currentRound, h.2⟩
    let roundTime := getTimeInSeconds settings.timePerRound
    let isCorrect := answerIsCorrect fuse mode question answer
    let newStreak := if isCorrect then s.streak + 1 else 0
    let points := Utils.calculateScore isCorrect (s.timeRemaining : Rat)
      (roundTime : Rat) (s.streak : Rat)
    let result : RoundResult :=
      { round := s.currentRound + 1
        track := question.track
        userAnswer := answer
        correctAnswer := question.correctAnswer
        isCorrect := isCorrect
        timeRemaining := s.timeRemaining
        points := points
        streak := newStreak }
    { s with
      streak := newStreak
      maxStreak := if newStreak > s.maxStreak then newStreak else s.maxStreak
      score := s.score + points
      roundResults := s.roundResults ++ [result]
      isPlaying := false }
  else s

/-! ## Helper lemmas: the Fisher–Yates shuffle is a permutation -/

theorem listSwap_perm {α : Type _} (l : List α) (i j : Nat) :
    (Utils.listSwap l i j).Perm l := by
  classical
  unfold Utils.listSwap
  cases hi : l[i]? with
  | none => simp
  | some x =>
    cases hj : l[j]? with
    | none => simp
    | some y =>
      simp only
      obtain ⟨hi', hix⟩ := List.getElem?_eq_some.mp hi
      obtain ⟨hj', hjy⟩ := List.getElem?_eq_some.mp hj
      have hj2 : j < (l.set i y).length := by simpa using hj'
      rw [List.perm_iff_count]
      intro a
      rw [List.count_set x a (l.set i y) j hj2, List.count_set y a l i hi']
      have hset : getElem (l.set i y) j hj2 = y := by
        by_cases hij : i = j
        · subst hij
          simp
        · rw [List.getElem_set_ne hij]
          exact hjy
      rw [hset, hix]
      have hmemx : x ∈ l := hix ▸ List.getElem_mem hi'
      by_cases hxa : x = a
      · have hcx : 1 ≤ List.count a l := List.count_pos_iff.mpr (hxa ▸ hmemx)
        by_cases hya : y = a <;> simp [beq_iff_eq, hxa, hya] <;> omega
      · by_cases hya : y = a <;>
          simp [beq_iff_eq, hxa, hya]

theorem shuffleLoop_perm {α : Type _} (rand : Nat → Nat) :
    ∀ (n : Nat) (l : List α), (Utils.shuffleLoop rand l n).Perm l := by
  intro n
  induction n with
  | zero => intro l; exact List.Perm.refl l
  | succ i ih =>
    intro l
    exact (ih _).trans (listSwap_perm l (i + 1) (rand (i + 1) % (i + 2)))

theorem shuffleArray_perm {α : Type _} (rand : Nat → Nat) (l : List α) :
    (Utils.shuffleArray rand l).Perm l :=
  shuffleLoop_perm rand (l.length - 1) l

theorem shuffleArray_length {α : Type _} (rand : Nat → Nat) (l : List α) :
    (Utils.shuffleArray rand l).length = l.length :=
  (shuffleArray_perm rand l).length_eq

theorem shuffleArray_mem {α : Type _} (rand : Nat → Nat) (l : List α) (a : α) :
    a ∈ Utils.shuffleArray rand l ↔ a ∈ l :=
  (shuffleArray_perm rand l).mem_iff

/-! ## Helper lemmas: the distractor loop and the option invariants -/

theorem collectWrong_spec (mode : GameMode) (selfId : String) (cas : List String) :
    ∀ (ts : List Track) (uniq wrong : List String),
      (∀ x ∈ wrong, x ∈ uniq) → wrong.Nodup → wrong.length < 3 →
      (collectWrong mode selfId cas ts uniq wrong).Nodup ∧
        (∀ x ∈ collectWrong mode selfId cas ts uniq wrong,
          x ∈ wrong ∨ (x ∉ cas ∧ x ∉ uniq)) ∧
        (collectWrong mode selfId cas ts uniq wrong).length ≤ 3 := by
  intro ts
  induction ts with
  | nil =>
    intro uniq wrong h1 h2 h3
    simp only [collectWrong]
    exact ⟨h2, fun x hx => Or.inl hx, by omega⟩
  | cons t rest ih =>
    intro uniq wrong h1 h2 h3
    simp only [collectWrong]
    split_ifs with hid hcas huniq hlen
    · exact ih uniq wrong h1 h2 h3
    · exact ih uniq wrong h1 h2 h3
    · exact ih uniq wrong h1 h2 h3
    · have hvw : getOptionValue mode t ∉ wrong := fun hv => huniq (h1 _ hv)
      have hnd : (wrong ++ [getOptionValue mode t]).Nodup :=
        h2.append (List.nodup_singleton _) (List.disjoint_singleton.mpr hvw)
      refine ⟨hnd, ?_, ?_⟩
      · intro x hx
        rcases List.mem_append.mp hx with hx | hx
        · exact Or.inl hx
        · rcases List.mem_singleton.mp hx with rfl
          exact Or.inr ⟨hcas, huniq⟩
      · simp only [List.length_append, List.length_singleton]
        omega
    · have hvw : getOptionValue mode t ∉ wrong := fun hv => huniq (h1 _ hv)
      have hnd : (wrong ++ [getOptionValue mode t]).Nodup :=
        h2.append (List.nodup_singleton _) (List.disjoint_singleton.mpr hvw)
      have h1' : ∀ x ∈ wrong ++ [getOptionValue mode t],
          x ∈ uniq ++ [getOptionValue mode t] := by
        intro x hx
        rcases List.mem_append.mp hx with hx | hx
        · exact List.mem_append.mpr (Or.inl (h1 x hx))
        · exact List.mem_append.mpr (Or.inr hx)
      have h3' : (wrong ++ [getOptionValue mode t]).length < 3 := by
        simp only [List.length_append, List.length_singleton] at hlen ⊢
        omega
      obtain ⟨ih1, ih2, ih3⟩ := ih (uniq ++ [getOptionValue mode t])
        (wrong ++ [getOptionValue mode t]) h1' hnd h3'
      refine ⟨ih1, ?_, ih3⟩
      intro x hx
      rcases ih2 x hx with hx' | ⟨hx1, hx2⟩
      · rcases List.mem_append.mp hx' with hw | hw
        · exact Or.inl hw
        · rcases List.mem_singleton.mp hw with rfl
          exact Or.inr ⟨hcas, huniq⟩
      · exact Or.inr ⟨hx1, fun hu => hx2 (List.mem_append.mpr (Or.inl hu))⟩

theorem buildQuestion_options_spec (mode : GameMode) (tracks shuffledTracks : List Track)
    (optRand : Nat → Nat) (repairRand : Nat) (track : Track) (index : Nat) :
    (buildQuestion mode tracks shuffledTracks optRand repairRand track index).options.length ≤ 4 ∧
    (buildQuestion mode tracks shuffledTracks optRand repairRand track index).options.Nodup ∧
    (buildQuestion mode tracks shuffledTracks optRand repairRand track index).correctAnswer ∈
      (buildQuestion mode tracks shuffledTracks optRand repairRand track index).options ∧
    (∀ s ∈ (buildQuestion mode tracks shuffledTracks optRand repairRand track index).options,
      s ∈ (buildQuestion mode tracks shuffledTracks optRand repairRand track index).correctAnswers →
        s = (buildQuestion mode tracks shuffledTracks optRand repairRand track index).correctAnswer) := by
  obtain ⟨hnd, hmem, hlen⟩ := collectWrong_spec mode track.id
    (buildCorrectAnswers mode tracks track (getOptionValue mode track)) shuffledTracks
    [getOptionValue mode track] [] (by simp) List.nodup_nil (by norm_num)
  set ca := getOptionValue mode track with hca
  set cas := buildCorrectAnswers mode tracks track ca with hcas
  set wrong := collectWrong mode track.id cas shuffledTracks [ca] [] with hwrong
  have hne : ca ∉ wrong := by
    intro hc
    rcases hmem ca hc with h | ⟨_, h⟩
    · exact List.not_mem_nil ca h
    · exact h (List.mem_singleton_self ca)
  have hnd0 : (ca :: wrong).Nodup := List.nodup_cons.mpr ⟨hne, hnd⟩
  have hlen0 : (ca :: wrong).length ≤ 4 := by
    simp only [List.length_cons]
    omega
  have hperm : (Utils.shuffleArray optRand (ca :: wrong)).Perm (ca :: wrong) :=
    shuffleArray_perm optRand (ca :: wrong)
  have hlenS : (Utils.shuffleArray optRand (ca :: wrong)).length ≤ 4 := by
    rw [hperm.length_eq]
    exact hlen0
  have htake : (Utils.shuffleArray optRand (ca :: wrong)).take 4 =
      Utils.shuffleArray optRand (ca :: wrong) := List.take_of_length_le hlenS
  have hmemca : ca ∈ Utils.shuffleArray optRand (ca :: wrong) :=
    hperm.mem_iff.mpr (List.mem_cons_self ca wrong)
  have hopts : (buildQuestion mode tracks shuffledTracks optRand repairRand track index).options =
      Utils.shuffleArray optRand (ca :: wrong) := by
    simp only [buildQuestion, ← hca, ← hcas, ← hwrong]
    rw [htake, if_pos hmemca]
  have hqca : (buildQuestion mode tracks shuffledTracks optRand repairRand track index).correctAnswer = ca := rfl
  have hqcas : (buildQuestion mode tracks shuffledTracks optRand repairRand track index).correctAnswers = cas := rfl
  rw [hopts, hqca, hqcas]
  refine ⟨hlenS, hperm.symm.nodup hnd0, hmemca, ?_⟩
  intro s hs hscas
  rcases List.mem_cons.mp (hperm.mem_iff.mp hs) with rfl | hs'
  · rfl
  · rcases hmem s hs' with h | ⟨h, _⟩
    · exact absurd h (List.not_mem_nil s)
    · exact absurd hscas h

theorem mem_buildQuestions (mode : GameMode) (tracks shuffledTracks : List Track)
    (optRand : Nat → Nat → Nat) (repairRand : Nat → Nat) :
    ∀ (sel : List Track) (i : Nat) (q : QuizQuestion),
      q ∈ buildQuestions mode tracks shuffledTracks optRand repairRand sel i →
      ∃ t idx, q = buildQuestion mode tracks shuffledTracks (optRand idx) (repairRand idx) t idx := by
  intro sel
  induction sel with
  | nil =>
    intro i q hq
    simp [buildQuestions] at hq
  | cons t rest ih =>
    intro i q hq
    simp only [buildQuestions, List.mem_cons] at hq
    rcases hq with rfl | hq
    · exact ⟨t, i, rfl⟩
    · exact ih (i + 1) q hq

theorem mem_generateQuestions {poolRand : Nat → Nat} {optRand : Nat → Nat → Nat}
    {repairRand : Nat → Nat} {tracks : List Track} {mode : GameMode}
    {settings : GameSettings} {q : QuizQuestion}
    (hq : q ∈ generateQuestions poolRand optRand repairRand tracks mode settings) :
    ∃ t idx, q = buildQuestion mode tracks
      (Utils.shuffleArray poolRand (tracksForQuestions mode tracks))
      (optRand idx) (repairRand idx) t idx := by
  by_cases h4 : tracks.length < 4
  · simp [generateQuestions, h4] at hq
  · simp only [generateQuestions, h4, if_false, ite_false] at hq
    exact mem_buildQuestions mode tracks _ optRand repairRand _ 0 q hq

theorem jsSetDedup_foldl_mem (l : List String) :
    ∀ (acc : List String) (s : String),
      (s ∈ l.foldl (fun acc s => if s ∈ acc then acc else acc ++ [s]) acc) ↔
        s ∈ acc ∨ s ∈ l := by
  induction l with
  | nil => intro acc s; simp
  | cons x rest ih =>
    intro acc s
    simp only [List.foldl_cons]
    rw [ih]
    by_cases hx : x ∈ acc
    · simp only [if_pos hx, List.mem_cons]
      constructor
      · rintro (h | h)
        · exact Or.inl h
        · exact Or.inr (Or.inr h)
      · rintro (h | rfl | h)
        · exact Or.inl h
        · exact Or.inl hx
        · exact Or.inr h
    · simp only [if_neg hx, List.mem_append, List.mem_singleton, List.mem_cons]
      tauto

theorem jsSetDedup_mem (l : List String) (s : String) :
    s ∈ jsSetDedup l ↔ s ∈ l := by
  unfold jsSetDedup
  rw [jsSetDedup_foldl_mem]
  simp

theorem buildCorrectAnswers_genre_mem (tracks : List Track) (track : Track) (s : String) :
    s ∈ buildCorrectAnswers .genre tracks track (getOptionValue .genre track) ↔
      ∃ t ∈ tracks, t.primaryArtist = track.primaryArtist ∧
        Utils.normalizeTrackName t.name = Utils.normalizeTrackName track.name ∧
        t.name = s := by
  simp only [buildCorrectAnswers, getOptionValue]
  rw [jsSetDedup_mem]
  simp only [List.mem_map, List.mem_filter, Bool.and_eq_true, decide_eq_true_eq]
  constructor
  · rintro ⟨t, ⟨ht, ha, hn⟩, rfl⟩
    exact ⟨t, ht, ha, hn, rfl⟩
  · rintro ⟨t, ht, ha, hn, rfl⟩
    exact ⟨t, ⟨ht, ha, hn⟩, rfl⟩

/-! ## Helper lemmas: the genre-mode dedup pool -/

/-- Reference form of the genre-mode dedup, for comparison with the
spec's deduplication policy: walk the input in order and keep a track only
when its key has not been seen before (i.e. keep the *first* occurrence of
each key). -/
def keepFirstByKey : List Track → List String → List Track
  | [], _ => []
  | t :: rest, seen =>
    if trackKey t ∈ seen then keepFirstByKey rest seen
    else t :: keepFirstByKey rest (trackKey t :: seen)

theorem keepFirstByKey_congr :
    ∀ (ts : List Track) (seen₁ seen₂ : List String),
      (∀ k, k ∈ seen₁ ↔ k ∈ seen₂) →
      keepFirstByKey ts seen₁ = keepFirstByKey ts seen₂ := by
  intro ts
  induction ts with
  | nil => intro _ _ _; rfl
  | cons t rest ih =>
    intro seen₁ seen₂ hiff
    simp only [keepFirstByKey]
    by_cases h1 : trackKey t ∈ seen₁
    · rw [if_pos h1, if_pos ((hiff _).mp h1)]
      exact ih seen₁ seen₂ hiff
    · rw [if_neg h1, if_neg (fun h => h1 ((hiff _).mpr h))]
      have : ∀ k, k ∈ trackKey t :: seen₁ ↔ k ∈ trackKey t :: seen₂ := by
        intro k
        simp only [List.mem_cons]
        rw [hiff]
      rw [ih _ _ this]

theorem foldl_insertTrackByKey_eq (ts : List Track) :
    ∀ (acc : List (String × Track)),
      (ts.foldl insertTrackByKey acc).map Prod.snd =
        acc.map Prod.snd ++ keepFirstByKey ts (acc.map Prod.fst) := by
  induction ts with
  | nil => intro acc; simp [keepFirstByKey]
  | cons t rest ih =>
    intro acc
    simp only [List.foldl_cons, keepFirstByKey]
    have hany : (acc.any fun p => p.1 = trackKey t) = true ↔
        trackKey t ∈ acc.map Prod.fst := by
      simp [List.any_eq_true, List.mem_map]
    by_cases hk : trackKey t ∈ acc.map Prod.fst
    · rw [if_pos hk]
      have : insertTrackByKey acc t = acc := by
        unfold insertTrackByKey
        rw [if_pos (hany.mpr hk)]
      rw [this, ih acc]
    · rw [if_neg hk]
      have : insertTrackByKey acc t = acc ++ [(trackKey t, t)] := by
        unfold insertTrackByKey
        rw [if_neg (fun h => hk (hany.mp h))]
      rw [this, ih (acc ++ [(trackKey t, t)])]
      have hcong := keepFirstByKey_congr rest
        ((acc ++ [(trackKey t, t)]).map Prod.fst) (trackKey t :: acc.map Prod.fst)
        (by intro k; simp [List.mem_append, List.mem_cons, or_comm])
      rw [hcong]
      simp

theorem tracksForQuestions_genre_eq (tracks : List Track) :
    tracksForQuestions .genre tracks = keepFirstByKey tracks [] := by
  simp only [tracksForQuestions]
  rw [foldl_insertTrackByKey_eq tracks []]
  simp

theorem keepFirstByKey_length_le :
    ∀ (ts : List Track) (seen : List String),
      (keepFirstByKey ts seen).length ≤ ts.length := by
  intro ts
  induction ts with
  | nil => intro seen; simp [keepFirstByKey]
  | cons t rest ih =>
    intro seen
    simp only [keepFirstByKey]
    by_cases hk : trackKey t ∈ seen
    · rw [if_pos hk]
      exact Nat.le_succ_of_le (ih seen)
    · rw [if_neg hk]
      simpa using Nat.succ_le_succ (ih (trackKey t :: seen))

theorem tracksForQuestions_length_le (mode : GameMode) (tracks : List Track) :
    (tracksForQuestions mode tracks).length ≤ tracks.length := by
  cases mode with
  | genre =>
    rw [tracksForQuestions_genre_eq]
    exact keepFirstByKey_length_le tracks []
  | artist => exact Nat.le_refl _
  | album => exact Nat.le_refl _

theorem tracksForQuestions_ne_nil (mode : GameMode) (tracks : List Track)
    (h : tracks ≠ []) : tracksForQuestions mode tracks ≠ [] := by
  cases mode with
  | genre =>
    rw [tracksForQuestions_genre_eq]
    cases tracks with
    | nil => exact absurd rfl h
    | cons t rest =>
      simp [keepFirstByKey]
  | artist => exact h
  | album => exact h

theorem buildQuestions_length (mode : GameMode) (tracks shuffledTracks : List Track)
    (optRand : Nat → Nat → Nat) (repairRand : Nat → Nat) :
    ∀ (sel : List Track) (i : Nat),
      (buildQuestions mode tracks shuffledTracks optRand repairRand sel i).length =
        sel.length := by
  intro sel
  induction sel with
  | nil => intro i; rfl
  | cons t rest ih =>
    intro i
    simp only [buildQuestions, List.length_cons]
    rw [ih (i + 1)]

theorem getRoundsCount_pos (setting : RoundSetting) (trackCount : Nat)
    (h : 4 ≤ trackCount) : 1 ≤ getRoundsCount setting trackCount := by
  cases setting <;> simp [getRoundsCount] <;> omega

/-! ## Helper lemmas: the answer-submission step -/

/-- The `RoundResult` recorded by an accepted `handleAnswer` call. -/
def answerResult (fuse : Fuzzy.FuseEngine) (mode : GameMode) (settings : GameSettings)
    (s : GameState) (answer : String) (question : QuizQuestion) : RoundResult :=
  let isCorrect := answerIsCorrect fuse mode question answer
  { round := s.currentRound + 1
    track := question.track
    userAnswer := answer
    correctAnswer := question.correctAnswer
    isCorrect := isCorrect
    timeRemaining := s.timeRemaining
    points := Utils.calculateScore isCorrect (s.timeRemaining : Rat)
      ((getTimeInSeconds settings.timePerRound : Nat) : Rat) (s.streak : Rat)
    streak := if isCorrect then s.streak + 1 else 0 }

theorem handleAnswer_guarded (fuse : Fuzzy.FuseEngine) (mode : GameMode)
    (settings : GameSettings) (s : GameState) (answer : String)
    (h : ¬(s.isPlaying = true ∧ s.currentRound < s.questions.length)) :
    handleAnswer fuse mode settings s answer = s := by
  unfold handleAnswer
  rw [dif_neg h]

theorem handleAnswer_accepted (fuse : Fuzzy.FuseEngine) (mode : GameMode)
    (settings : GameSettings) (s : GameState) (answer : String)
    (h1 : s.isPlaying = true) (h2 : s.currentRound < s.questions.length) :
    handleAnswer fuse mode settings s answer =
      { s with
        streak := (answerResult fuse mode settings s answer (s.questions.get ⟨s.currentRound, h2⟩)).streak
        maxStreak :=
          if (answerResult fuse mode settings s answer (s.questions.get ⟨s.currentRound, h2⟩)).streak > s.maxStreak then
            (answerResult fuse mode settings s answer (s.questions.get ⟨s.currentRound, h2⟩)).streak
          else s.maxStreak
        score := s.score +
          (answerResult fuse mode settings s answer (s.questions.get ⟨s.currentRound, h2⟩)).points
        roundResults := s.roundResults ++
          [answerResult fuse mode settings s answer (s.questions.get ⟨s.currentRound, h2⟩)]
        isPlaying := false } := by
  unfold handleAnswer
  rw [dif_pos ⟨h1, h2⟩]
  rfl

/-! ## Helper lemmas: the fuzzy matcher -/

theorem jsFindIndex_spec (p : String → Bool) :
    ∀ (l : List String), (∃ x ∈ l, p x = true) →
      ∃ i, Fuzzy.jsFindIndex p l = some i ∧ i < l.length ∧
        p (l.getD i "") = true ∧ l.getD i "" ∈ l := by
  intro l
  induction l with
  | nil =>
    rintro ⟨x, hx, _⟩
    exact absurd hx (List.not_mem_nil x)
  | cons o rest ih =>
    rintro ⟨x, hx, hpx⟩
    by_cases hpo : p o = true
    · refine ⟨0, ?_, ?_, ?_, ?_⟩
      · simp [Fuzzy.jsFindIndex, hpo]
      · simp
      · simpa using hpo
      · simp
    · have hxrest : x ∈ rest := by
        rcases List.mem_cons.mp hx with rfl | hr
        · exact absurd hpx hpo
        · exact hr
      obtain ⟨i, hi, hilt, hpi, himem⟩ := ih ⟨x, hxrest, hpx⟩
      refine ⟨i + 1, ?_, ?_, ?_, ?_⟩
      · simp [Fuzzy.jsFindIndex, hpo, hi]
      · simpa using Nat.succ_lt_succ hilt
      · simpa using hpi
      · exact List.mem_cons_of_mem o himem

/-! ## Demonstration inputs used by witnesses and counterexamples -/

/-- A fuzzy engine that never finds anything (the theorems hold for all
engines; witnesses need one concrete engine). -/
def demoFuse : Fuzzy.FuseEngine := fun _ _ _ => none

def demoSettings : GameSettings :=
  { rounds := .standard, timePerRound := .normal, allowPause := true }

def demoSong : Track := { id := "1", name := "Song", artists := ["X"], album := "A1" }

def demoSongRemix : Track :=
  { id := "2", name := "Song (Remix)", artists := ["X"], album := "A1" }

def demoOther : Track := { id := "3", name := "Other", artists := ["Y"], album := "A2" }

def demoThird : Track := { id := "4", name := "Third", artists := ["Z"], album := "A3" }

def demoTracks : List Track := [demoSong, demoSongRemix, demoOther, demoThird]

/-! ## Claim theorems -/

/-- C10: for every randomness oracle and every input list, `shuffleArray`
returns a permutation of the list — the same elements with the same
multiplicities.  The source copies the input (`[...array]`) before swapping,
so the caller's list — here modelled by the immutable `l` — is never
modified, and question generation never mutates the caller's track
catalog. -/
theorem claim10_shuffleArray_perm {α : Type _} (rand : Nat → Nat) (l : List α) :
    (Utils.shuffleArray rand l).Perm l :=
  shuffleArray_perm rand l

/-- C9: `findBestMatch` returns `none` on the empty query — even when a
candidate is the empty string or the threshold would accept anything — and
consequently `isMatch "" target t` is false for every target and threshold,
so a timeout submitted as a blank answer can never be scored as a
fuzzy-correct answer. -/
theorem claim9_blank_answer_never_matches (fuse : Fuzzy.FuseEngine) :
    (∀ (options : List String) (threshold : Rat),
      Fuzzy.findBestMatch fuse "" options threshold = none) ∧
    (∀ (target : String) (threshold : Rat),
      Fuzzy.isMatch fuse "" target threshold = false) := by
  refine ⟨fun options threshold => ?_, fun target threshold => ?_⟩
  · simp [Fuzzy.findBestMatch]
  · simp [Fuzzy.isMatch, Fuzzy.findBestMatch]

/-- C4 (counterexample): the claim "`findBestMatch(c, candidates, t)` for
`c ∈ candidates` returns confidence 1.0 and `match == c`" fails as stated:
with candidates `["The Song", "Song"]` and query `"Song"` the returned match
is `"The Song"` (the *first* candidate whose normalisation collides with the
query's, since `normalizeString` strips a leading "the"), not `"Song"`;
and for the empty-string candidate queried as `c = ""` the result is `none`
rather than a confidence-1.0 match. -/
theorem claim4_counterexample :
    Fuzzy.findBestMatch demoFuse "Song" ["The Song", "Song"] (2/5) =
      some ⟨"The Song", 1, 0⟩ ∧
    "The Song" ≠ "Song" ∧ "Song" ∈ ["The Song", "Song"] ∧
    Fuzzy.findBestMatch demoFuse "" [""] (2/5) = none := by
  refine ⟨by decide, by decide, by decide, by decide⟩

/-- C4 (amended): for every engine, every non-empty candidate list, every
threshold and every *non-empty* candidate string `c ∈ candidates`,
`findBestMatch(c, candidates, t)` returns a result with confidence exactly
1.0 whose match is the first candidate normalising equal to `c` — hence the
match equals `c` itself whenever no other candidate normalises equal
to `c`. -/
theorem claim4_exact_match (fuse : Fuzzy.FuseEngine) (c : String)
    (options : List String) (threshold : Rat)
    (hmem : c ∈ options) (hne : c ≠ "") :
    ∃ r, Fuzzy.findBestMatch fuse c options threshold = some r ∧
      r.confidence = 1 ∧ r.match' ∈ options ∧
      Fuzzy.normalizeString r.match' = Fuzzy.normalizeString c ∧
      ((∀ d ∈ options, Fuzzy.normalizeString d = Fuzzy.normalizeString c → d = c) →
        r.match' = c) := by
  obtain ⟨i, hfi, hilt, hpi, himem⟩ := jsFindIndex_spec
    (fun opt => Fuzzy.normalizeString opt = Fuzzy.normalizeString c) options
    ⟨c, hmem, by simp⟩
  have hopts : options.isEmpty = false := by
    cases options with
    | nil => exact absurd hmem (List.not_mem_nil c)
    | cons _ _ => rfl
  refine ⟨⟨options.getD i "", 1, (i : Int)⟩, ?_, rfl, himem, ?_, ?_⟩
  · unfold Fuzzy.findBestMatch
    rw [if_neg (by simp [hne, hopts])]
    simp only [hfi]
  · simpa using hpi
  · intro huniq
    exact huniq _ himem (by simpa using hpi)

/-- C5 (counterexample): the claim that the artist/album working pool is
deduplicated fails: in artist mode the pool is the input list unchanged, so
`"Song"` and `"Song (Remix)"` by the same artist are two pool entries with
the same `(normalized name, artist)` key; and even in genre mode the kept
representative is the *first encountered* variant, not the clean one —
putting `"Song (Remix)"` first keeps it instead of `"Song"`. -/
theorem claim5_counterexample :
    tracksForQuestions .artist demoTracks = demoTracks ∧
    ((tracksForQuestions .artist demoTracks).filter
      (fun t => trackKey t = trackKey demoSong)).length = 2 ∧
    (tracksForQuestions .genre [demoSongRemix, demoSong, demoOther, demoThird]).map
        Track.name = ["Song (Remix)", "Other", "Third"] := by
  refine ⟨rfl, by decide, by decide⟩

/-- C5 (amended): only the track-name (genre) working pool is deduplicated:
it keeps exactly one representative per `(normalized name, lowercased
primary artist)` key, namely the *first* variant encountered in input order
(`keepFirstByKey`); in artist and album modes the working pool is the input
track list unchanged, with no deduplication at all. -/
theorem claim5_dedup_pool (tracks : List Track) :
    tracksForQuestions .artist tracks = tracks ∧
    tracksForQuestions .album tracks = tracks ∧
    tracksForQuestions .genre tracks = keepFirstByKey tracks [] :=
  ⟨rfl, rfl, tracksForQuestions_genre_eq tracks⟩

/-- C7 (counterexample): the track-name normalizer is *not*
accent-insensitive — neither variant of `normalizeTrackName` decomposes or
strips diacritics, so `normalize("José") ≠ normalize("Jose")` for both. -/
theorem claim7_counterexample :
    Utils.normalizeTrackName "José" ≠ Utils.normalizeTrackName "Jose" ∧
    LibUtils.normalizeTrackName "José" ≠ LibUtils.normalizeTrackName "Jose" := by
  refine ⟨by decide, by decide⟩

/-- C7 (amended): accent-insensitivity lives in the fuzzy matcher's
comparison normaliser, not in the track-name normalizer:
`normalizeString` Unicode-decomposes and strips combining diacritical marks,
so `normalizeString("José") = normalizeString("Jose") = "jose"`, whereas
`Utils.normalizeTrackName "José" = "josé"` keeps the accent and
`LibUtils.normalizeTrackName "José" = "jos"` deletes the accented letter
outright. -/
theorem claim7_accent_insensitivity :
    Fuzzy.normalizeString "José" = Fuzzy.normalizeString "Jose" ∧
    Fuzzy.normalizeString "José" = "jose" ∧
    Utils.normalizeTrackName "José" = "josé" ∧
    LibUtils.normalizeTrackName "José" = "jos" := by
  refine ⟨by decide, by decide, by decide, by decide⟩

/-- C1: for every concluded round (an accepted `handleAnswer` while playing
and in range), exactly one `RoundResult` is appended; if the answer is
incorrect its points are 0 and the streak resets to 0; if correct, the
points equal `round(100 + (timeRemaining / totalRoundTime) * 50 +
streakBeforeIncrement * 10)` with the streak value held *before* this
round's increment; in particular a correct answer at
`timeRemaining = totalRoundTime` with streak 0 yields exactly 150 points,
and at `timeRemaining = 0` with streak 0 exactly 100 points. -/
theorem claim1_scoring (fuse : Fuzzy.FuseEngine) (mode : GameMode)
    (settings : GameSettings) (s : GameState) (answer : String)
    (h1 : s.isPlaying = true) (h2 : s.currentRound < s.questions.length) :
    ∃ res : RoundResult,
      (handleAnswer fuse mode settings s answer).roundResults =
        s.roundResults ++ [res] ∧
      res.isCorrect =
        answerIsCorrect fuse mode (s.questions.get ⟨s.currentRound, h2⟩) answer ∧
      (res.isCorrect = false → res.points = 0 ∧
        (handleAnswer fuse mode settings s answer).streak = 0) ∧
      (res.isCorrect = true →
        res.points = Utils.jsRound (100 +
          (s.timeRemaining : Rat) / ((getTimeInSeconds settings.timePerRound : Nat) : Rat) * 50 +
          (s.streak : Rat) * 10)) ∧
      (res.isCorrect = true → s.streak = 0 →
        s.timeRemaining = getTimeInSeconds settings.timePerRound → res.points = 150) ∧
      (res.isCorrect = true → s.streak = 0 → s.timeRemaining = 0 →
        res.points = 100) := by
  have hacc := handleAnswer_accepted fuse mode settings s answer h1 h2
  refine ⟨answerResult fuse mode settings s answer (s.questions.get ⟨s.currentRound, h2⟩),
    by rw [hacc], rfl, ?_, ?_, ?_, ?_⟩
  · intro hic
    have hic' : answerIsCorrect fuse mode (s.questions.get ⟨s.currentRound, h2⟩) answer
        = false := hic
    constructor
    · show Utils.calculateScore
        (answerIsCorrect fuse mode (s.questions.get ⟨s.currentRound, h2⟩) answer)
        (s.timeRemaining : Rat) ((getTimeInSeconds settings.timePerRound : Nat) : Rat)
        (s.streak : Rat) = 0
      rw [hic']
      simp [Utils.calculateScore]
    · rw [hacc]
      show (answerResult fuse mode settings s answer
        (s.questions.get ⟨s.currentRound, h2⟩)).streak = 0
      show (if answerIsCorrect fuse mode (s.questions.get ⟨s.currentRound, h2⟩) answer
        then s.streak + 1 else 0) = 0
      rw [hic']
      simp
  · intro hic
    have hic' : answerIsCorrect fuse mode (s.questions.get ⟨s.currentRound, h2⟩) answer
        = true := hic
    show Utils.calculateScore
        (answerIsCorrect fuse mode (s.questions.get ⟨s.currentRound, h2⟩) answer)
        (s.timeRemaining : Rat) ((getTimeInSeconds settings.timePerRound : Nat) : Rat)
        (s.streak : Rat) =
      Utils.jsRound (100 +
        (s.timeRemaining : Rat) / ((getTimeInSeconds settings.timePerRound : Nat) : Rat) * 50 +
        (s.streak : Rat) * 10)
    rw [hic']
    simp [Utils.calculateScore]
  · intro hic hstreak htime
    have hic' : answerIsCorrect fuse mode (s.questions.get ⟨s.currentRound, h2⟩) answer
        = true := hic
    show Utils.calculateScore
        (answerIsCorrect fuse mode (s.questions.get ⟨s.currentRound, h2⟩) answer)
        (s.timeRemaining : Rat) ((getTimeInSeconds settings.timePerRound : Nat) : Rat)
        (s.streak : Rat) = 150
    rw [hic', htime, hstreak]
    cases settings.timePerRound <;>
      · simp only [getTimeInSeconds, Utils.calculateScore, Utils.jsRound]
        norm_num
  · intro hic hstreak htime
    have hic' : answerIsCorrect fuse mode (s.questions.get ⟨s.currentRound, h2⟩) answer
        = true := hic
    show Utils.calculateScore
        (answerIsCorrect fuse mode (s.questions.get ⟨s.currentRound, h2⟩) answer)
        (s.timeRemaining : Rat) ((getTimeInSeconds settings.timePerRound : Nat) : Rat)
        (s.streak : Rat) = 100
    rw [hic', htime, hstreak]
    simp only [Utils.calculateScore, Utils.jsRound]
    norm_num

/-- A fixed single-question game state used by the state-machine witnesses. -/
def demoQuestion : QuizQuestion :=
  { track := demoSong
    options := ["Third", "Song", "Other"]
    correctAnswer := "Song"
    correctAnswers := ["Song", "Song (Remix)"]
    round := 1 }

def demoState : GameState :=
  { questions := [demoQuestion]
    currentRound := 0
    timeRemaining := 20
    score := 0
    streak := 0
    maxStreak := 0
    roundResults := []
    isPlaying := true
    isPaused := false }

theorem claim1_scoring_witness :
    demoState.isPlaying = true ∧ demoState.currentRound < demoState.questions.length ∧
    ∃ res : RoundResult,
      (handleAnswer demoFuse .genre demoSettings demoState "Song").roundResults =
        demoState.roundResults ++ [res] ∧
      res.isCorrect = answerIsCorrect demoFuse .genre
        (demoState.questions.get ⟨demoState.currentRound, by decide⟩) "Song" ∧
      (res.isCorrect = false → res.points = 0 ∧
        (handleAnswer demoFuse .genre demoSettings demoState "Song").streak = 0) ∧
      (res.isCorrect = true →
        res.points = Utils.jsRound (100 +
          (demoState.timeRemaining : Rat) /
            ((getTimeInSeconds demoSettings.timePerRound : Nat) : Rat) * 50 +
          (demoState.streak : Rat) * 10)) ∧
      (res.isCorrect = true → demoState.streak = 0 →
        demoState.timeRemaining = getTimeInSeconds demoSettings.timePerRound →
          res.points = 150) ∧
      (res.isCorrect = true → demoState.streak = 0 → demoState.timeRemaining = 0 →
        res.points = 100) :=
  ⟨rfl, by decide,
    claim1_scoring demoFuse .genre demoSettings demoState "Song" rfl (by decide)⟩

/-- C6: answer submission is idempotent per round: an accepted submission
appends exactly one `RoundResult` and stops the round, and every further
submission for the same round — duplicate click or the timeout's blank
answer — is a no-op leaving the state (results, score, streak) unchanged. -/
theorem claim6_submission_idempotent (fuse : Fuzzy.FuseEngine) (mode : GameMode)
    (settings : GameSettings) (s : GameState) (answer : String)
    (h1 : s.isPlaying = true) (h2 : s.currentRound < s.questions.length) :
    (∃ res, (handleAnswer fuse mode settings s answer).roundResults =
      s.roundResults ++ [res]) ∧
    (handleAnswer fuse mode settings s answer).isPlaying = false ∧
    (∀ answer₂, handleAnswer fuse mode settings
      (handleAnswer fuse mode settings s answer) answer₂ =
        handleAnswer fuse mode settings s answer) := by
  have hacc := handleAnswer_accepted fuse mode settings s answer h1 h2
  refine ⟨⟨_, by rw [hacc]⟩, by rw [hacc], ?_⟩
  intro answer₂
  apply handleAnswer_guarded
  rw [hacc]
  rintro ⟨hp, -⟩
  exact Bool.false_ne_true hp

theorem claim6_submission_idempotent_witness :
    demoState.isPlaying = true ∧ demoState.currentRound < demoState.questions.length ∧
    ((∃ res, (handleAnswer demoFuse .genre demoSettings demoState "Other").roundResults =
      demoState.roundResults ++ [res]) ∧
    (handleAnswer demoFuse .genre demoSettings demoState "Other").isPlaying = false ∧
    (∀ answer₂, handleAnswer demoFuse .genre demoSettings
      (handleAnswer demoFuse .genre demoSettings demoState "Other") answer₂ =
        handleAnswer demoFuse .genre demoSettings demoState "Other")) :=
  ⟨rfl, by decide,
    claim6_submission_idempotent demoFuse .genre demoSettings demoState "Other"
      rfl (by decide)⟩

theorem claim4_exact_match_witness :
    "Song" ∈ ["Song", "Other"] ∧ "Song" ≠ "" ∧
    ∃ r, Fuzzy.findBestMatch demoFuse "Song" ["Song", "Other"] (2/5) = some r ∧
      r.confidence = 1 ∧ r.match' ∈ ["Song", "Other"] ∧
      Fuzzy.normalizeString r.match' = Fuzzy.normalizeString "Song" ∧
      ((∀ d ∈ ["Song", "Other"],
          Fuzzy.normalizeString d = Fuzzy.normalizeString "Song" → d = "Song") →
        r.match' = "Song") :=
  ⟨by decide, by decide,
    claim4_exact_match demoFuse "Song" ["Song", "Other"] (2/5) (by decide) (by decide)⟩

/-- C2: every generated `QuizQuestion` — for any input track list, mode,
round-count setting and randomness — has at most 4 options, pairwise
distinct options, and contains its correct answer among the options (the
defensive repair never needs to fire, but the proof covers the construction
that includes it). -/
theorem claim2_question_invariants (poolRand : Nat → Nat) (optRand : Nat → Nat → Nat)
    (repairRand : Nat → Nat) (tracks : List Track) (mode : GameMode)
    (settings : GameSettings) (q : QuizQuestion)
    (hq : q ∈ generateQuestions poolRand optRand repairRand tracks mode settings) :
    q.options.length ≤ 4 ∧ q.options.Nodup ∧ q.correctAnswer ∈ q.options := by
  obtain ⟨t, idx, rfl⟩ := mem_generateQuestions hq
  obtain ⟨hl, hn, hm, -⟩ := buildQuestion_options_spec mode tracks _ _ _ t idx
  exact ⟨hl, hn, hm⟩

/-- The first question generated from the demonstration catalog with the
all-zero randomness oracles (used by the claim-2 witness). -/
def demoGeneratedQ1 : QuizQuestion :=
  { track := demoOther
    options := ["Third", "Song", "Other"]
    correctAnswer := "Other"
    correctAnswers := ["Other"]
    round := 1 }

theorem claim2_question_invariants_witness :
    demoGeneratedQ1 ∈ generateQuestions (fun _ => 0) (fun _ _ => 0) (fun _ => 0)
      demoTracks .genre demoSettings ∧
    (demoGeneratedQ1.options.length ≤ 4 ∧ demoGeneratedQ1.options.Nodup ∧
      demoGeneratedQ1.correctAnswer ∈ demoGeneratedQ1.options) :=
  ⟨by decide,
    claim2_question_invariants (fun _ => 0) (fun _ _ => 0) (fun _ => 0)
      demoTracks .genre demoSettings demoGeneratedQ1 (by decide)⟩

/-- C3: in genre (track-name) mode, every generated question's
`correctAnswers` is exactly the set of original names of the pre-dedup
input tracks sharing the backing track's primary artist and normalised
name — a track with a matching normalised name but a different primary
artist is never included — and no accepted variation other than the correct
answer itself ever appears among the question's options. -/
theorem claim3_genre_correct_answers (poolRand : Nat → Nat) (optRand : Nat → Nat → Nat)
    (repairRand : Nat → Nat) (tracks : List Track) (settings : GameSettings)
    (q : QuizQuestion)
    (hq : q ∈ generateQuestions poolRand optRand repairRand tracks .genre settings) :
    (∀ s, s ∈ q.correctAnswers ↔ ∃ t ∈ tracks,
      t.primaryArtist = q.track.primaryArtist ∧
      Utils.normalizeTrackName t.name = Utils.normalizeTrackName q.track.name ∧
      t.name = s) ∧
    (∀ s ∈ q.options, s ∈ q.correctAnswers → s = q.correctAnswer) := by
  obtain ⟨t, idx, rfl⟩ := mem_generateQuestions hq
  constructor
  · intro s
    exact buildCorrectAnswers_genre_mem tracks t s
  · obtain ⟨-, -, -, h4⟩ := buildQuestion_options_spec .genre tracks _ _ _ t idx
    exact h4

/-- The genre-mode question backed by the demonstration track `"Song"`,
whose accepted variations include `"Song (Remix)"` (used by the claim-3
witness). -/
def demoGeneratedQ3 : QuizQuestion :=
  { track := demoSong
    options := ["Other", "Third", "Song"]
    correctAnswer := "Song"
    correctAnswers := ["Song", "Song (Remix)"]
    round := 3 }

theorem claim3_genre_correct_answers_witness :
    demoGeneratedQ3 ∈ generateQuestions (fun _ => 0) (fun _ _ => 0) (fun _ => 0)
      demoTracks .genre demoSettings ∧
    ((∀ s, s ∈ demoGeneratedQ3.correctAnswers ↔ ∃ t ∈ demoTracks,
      t.primaryArtist = demoGeneratedQ3.track.primaryArtist ∧
      Utils.normalizeTrackName t.name =
        Utils.normalizeTrackName demoGeneratedQ3.track.name ∧
      t.name = s) ∧
    (∀ s ∈ demoGeneratedQ3.options,
      s ∈ demoGeneratedQ3.correctAnswers → s = demoGeneratedQ3.correctAnswer)) :=
  ⟨by decide,
    claim3_genre_correct_answers (fun _ => 0) (fun _ _ => 0) (fun _ => 0)
      demoTracks demoSettings demoGeneratedQ3 (by decide)⟩

/-- C8: question generation raises no exception and returns the empty list
exactly when the input pool has fewer than 4 tracks; for a pool of at least
4 tracks the question list is non-empty, of length
`min(round target, deduplicated pool size)`. -/
theorem claim8_insufficient_pool (poolRand : Nat → Nat) (optRand : Nat → Nat → Nat)
    (repairRand : Nat → Nat) (tracks : List Track) (mode : GameMode)
    (settings : GameSettings) :
    (generateQuestions poolRand optRand repairRand tracks mode settings = [] ↔
      tracks.length < 4) ∧
    (4 ≤ tracks.length →
      (generateQuestions poolRand optRand repairRand tracks mode settings).length =
        min (getRoundsCount settings.rounds tracks.length)
          (tracksForQuestions mode tracks).length) := by
  have hlen : 4 ≤ tracks.length →
      (generateQuestions poolRand optRand repairRand tracks mode settings).length =
        min (getRoundsCount settings.rounds tracks.length)
          (tracksForQuestions mode tracks).length := by
    intro h4
    unfold generateQuestions
    rw [if_neg (by omega)]
    rw [buildQuestions_length, List.length_take, shuffleArray_length]
    omega
  refine ⟨⟨?_, ?_⟩, hlen⟩
  · intro he
    by_contra hlt
    have h4 : 4 ≤ tracks.length := by omega
    have hz := hlen h4
    rw [he] at hz
    have hr : 1 ≤ getRoundsCount settings.rounds tracks.length :=
      getRoundsCount_pos settings.rounds tracks.length h4
    have hne : tracksForQuestions mode tracks ≠ [] :=
      tracksForQuestions_ne_nil mode tracks
        (by intro hnil; rw [hnil] at h4; simp at h4)
    have hp : 1 ≤ (tracksForQuestions mode tracks).length :=
      List.length_pos.mpr hne
    simp only [List.length_nil] at hz
    omega
  · intro h4
    unfold generateQuestions
    rw [if_pos h4]

theorem claim8_insufficient_pool_witness :
    4 ≤ demoTracks.length ∧
    (generateQuestions (fun _ => 0) (fun _ _ => 0) (fun _ => 0) demoTracks .genre
        demoSettings).length =
      min (getRoundsCount demoSettings.rounds demoTracks.length)
        (tracksForQuestions .genre demoTracks).length :=
  ⟨by decide,
    (claim8_insufficient_pool (fun _ => 0) (fun _ _ => 0) (fun _ => 0) demoTracks
      .genre demoSettings).2 (by decide)⟩

end GuessSong

